import Mathlib

/-!
# Taller-SIMD: ASCII case conversion, scalar and AVX2 kernels, and the FNV checksum

Shallow embedding of `case_converter_serial.cpp` and `case_converter_SIMD.cpp`.

* A `uint8_t` is a `Byte = Fin 256`; every arithmetic result is computed in `Int`
  or `Nat` and then reduced modulo `256` explicitly (`Byte.ofInt`, `Byte.ofNat`).
* A `uint8_t*` together with the memory it points into is a pair of a buffer
  (`List Byte`) and an index into it; `text + offset` is index arithmetic.
* Every load and store of the conversion kernels is bounds checked: an access
  outside the buffer makes the whole computation `none` (undefined behaviour in
  the C++ program).
* The read-only checksum loop over `data[0 .. len)` is a left fold over the list.
* A `uint64_t` is a `Nat` below `2 ^ 64`; the wrapping multiplication carries an
  explicit `% 2 ^ 64`.
* A `__m256i` is a list of 32 bytes, element `k` being byte lane `k`.
-/

set_option maxRecDepth 100000

namespace TallerSIMD

/-- A `uint8_t`. -/
abbrev Byte := Fin 256

/-- Conversion of a C `int` to `uint8_t`: reduction modulo 256. -/
def Byte.ofInt (z : Int) : Byte :=
  ⟨(z % 256).toNat, by
    have h1 : 0 ≤ z % 256 := Int.emod_nonneg z (by decide)
    have h2 : z % 256 < 256 := Int.emod_lt_of_pos z (by decide)
    omega⟩

/-- Conversion of an unsigned value to `uint8_t`: reduction modulo 256. -/
def Byte.ofNat (n : Nat) : Byte := ⟨n % 256, Nat.mod_lt n (by decide)⟩

/-- A byte read as a signed 8-bit integer (two's complement, `int8_t`). -/
def Byte.toInt8 (b : Byte) : Int :=
  if b.val < 128 then (b.val : Int) else (b.val : Int) - 256

/-- Bounds-checked read `mem[i]`. -/
def load8 (mem : List Byte) (i : Nat) : Option Byte := mem[i]?

/-- Bounds-checked write `mem[i] = v`. -/
def store8 (mem : List Byte) (i : Nat) (v : Byte) : Option (List Byte) :=
  if i < mem.length then some (mem.set i v) else none

/-- The counted loop `for (size_t i = i0; i < i0 + n; ++i) body`, where the body
neither changes `i` nor the bound: `n` iterations remain, the next index is `i`. -/
def forLoop {σ : Type} (body : Nat → σ → Option σ) : Nat → Nat → σ → Option σ
  | 0, _, s => some s
  | n + 1, i, s =>
    match body i s with
    | none => none
    | some s1 => forLoop body n (i + 1) s1

/-! ## `case_converter_serial.cpp` -/

/-- Body of the first loop of `case_convert_serial`:
`if (text[i] >= 'a' && text[i] <= 'z') text[i] -= 0x20;` -/
def case_convert_serial_upper_body (i : Nat) (text : List Byte) : Option (List Byte) :=
  match load8 text i with
  | none => none
  | some c =>
    if 97 ≤ c.val ∧ c.val ≤ 122 then store8 text i (Byte.ofInt ((c.val : Int) - 0x20))
    else some text

/-- Body of the second loop of `case_convert_serial`:
`if (text[i] >= 'A' && text[i] <= 'Z') text[i] += 0x20;` -/
def case_convert_serial_lower_body (i : Nat) (text : List Byte) : Option (List Byte) :=
  match load8 text i with
  | none => none
  | some c =>
    if 65 ≤ c.val ∧ c.val ≤ 90 then store8 text i (Byte.ofInt ((c.val : Int) + 0x20))
    else some text

/-- Function `void case_convert_serial(uint8_t* text, size_t len, bool to_upper)`;
the result is the buffer after the call. -/
def case_convert_serial (text : List Byte) (len : Nat) (to_upper : Bool) :
    Option (List Byte) :=
  if to_upper then forLoop case_convert_serial_upper_body len 0 text
  else forLoop case_convert_serial_lower_body len 0 text

/-- Function `uint64_t fnv1a64(const uint8_t* data, size_t len)` with `len` the length of
`data`: `h = OFFSET; for each byte in order: h ^= byte; h *= PRIME` (64-bit wrap). -/
def fnv1a64 (data : List Byte) : Nat :=
  data.foldl (fun h b => ((h ^^^ b.val) * 1099511628211) % 2 ^ 64) 1469598103934665603

/-! ## `case_converter_SIMD.cpp` -/

/-- A 256-bit vector register seen as 32 byte lanes. -/
abbrev M256i := List Byte

/-- Lane width in bytes (`V_BYTES`). -/
def V_BYTES : Nat := 32

/-- Intrinsic `_mm256_set1_epi8`: broadcast one byte to all 32 lanes. -/
def _mm256_set1_epi8 (c : Byte) : M256i := List.replicate 32 c

/-- Intrinsic `_mm256_loadu_si256`: unaligned load of the 32 bytes at `p`. -/
def _mm256_loadu_si256 (mem : List Byte) (p : Nat) : Option M256i :=
  if p + 32 ≤ mem.length then some ((mem.drop p).take 32) else none

/-- Intrinsic `_mm256_storeu_si256`: unaligned store at `p` of the 32 lanes of `v`
(a register has exactly 32 lanes, hence `take 32`). -/
def _mm256_storeu_si256 (mem : List Byte) (p : Nat) (v : M256i) : Option (List Byte) :=
  if p + 32 ≤ mem.length then some (mem.take p ++ v.take 32 ++ mem.drop (p + 32)) else none

/-- Intrinsic `_mm256_xor_si256`: bitwise XOR. -/
def _mm256_xor_si256 (a b : M256i) : M256i :=
  List.zipWith (fun x y => Byte.ofNat (x.val ^^^ y.val)) a b

/-- Intrinsic `_mm256_and_si256`: bitwise AND. -/
def _mm256_and_si256 (a b : M256i) : M256i :=
  List.zipWith (fun x y => Byte.ofNat (x.val &&& y.val)) a b

/-- Intrinsic `_mm256_add_epi8`: lane-wise addition modulo 256. -/
def _mm256_add_epi8 (a b : M256i) : M256i :=
  List.zipWith (fun x y => Byte.ofInt ((x.val : Int) + (y.val : Int))) a b

/-- Intrinsic `_mm256_sub_epi8`: lane-wise subtraction modulo 256. -/
def _mm256_sub_epi8 (a b : M256i) : M256i :=
  List.zipWith (fun x y => Byte.ofInt ((x.val : Int) - (y.val : Int))) a b

/-- Intrinsic `_mm256_cmpgt_epi8`: lane-wise SIGNED greater-than, `0xFF` where
`a > b` and `0x00` elsewhere. -/
def _mm256_cmpgt_epi8 (a b : M256i) : M256i :=
  List.zipWith (fun x y => if x.toInt8 > y.toInt8 then (0xFF : Byte) else 0) a b

/-- Body of the first loop of `case_convert_serial_tail`:
`uint8_t c = ptr[i]; if (c >= 'a' && c <= 'z') ptr[i] = c - 0x20;` -/
def case_convert_serial_tail_upper_body (ptr : Nat) (i : Nat) (mem : List Byte) :
    Option (List Byte) :=
  match load8 mem (ptr + i) with
  | none => none
  | some c =>
    if 97 ≤ c.val ∧ c.val ≤ 122 then store8 mem (ptr + i) (Byte.ofInt ((c.val : Int) - 0x20))
    else some mem

/-- Body of the second loop of `case_convert_serial_tail`:
`uint8_t c = ptr[i]; if (c >= 'A' && c <= 'Z') ptr[i] = c + 0x20;` -/
def case_convert_serial_tail_lower_body (ptr : Nat) (i : Nat) (mem : List Byte) :
    Option (List Byte) :=
  match load8 mem (ptr + i) with
  | none => none
  | some c =>
    if 65 ≤ c.val ∧ c.val ≤ 90 then store8 mem (ptr + i) (Byte.ofInt ((c.val : Int) + 0x20))
    else some mem

/-- Function `static inline void case_convert_serial_tail(uint8_t* ptr, size_t len, bool to_upper)`;
the pointer is the index `ptr` into the buffer `mem`. -/
def case_convert_serial_tail (mem : List Byte) (ptr : Nat) (len : Nat) (to_upper : Bool) :
    Option (List Byte) :=
  if to_upper then forLoop (case_convert_serial_tail_upper_body ptr) len 0 mem
  else forLoop (case_convert_serial_tail_lower_body ptr) len 0 mem

/-- The `is_lower` mask of one iteration of the lane loop of
`case_convert_simd_avx2`, computed from the loaded vector `v`. -/
def lane_is_lower (v : M256i) : M256i :=
  let v_0x80 := _mm256_set1_epi8 0x80
  let v_a := _mm256_set1_epi8 97
  let v_z := _mm256_set1_epi8 122
  let v_off := _mm256_xor_si256 v v_0x80
  let v_a_minus1 := _mm256_sub_epi8 v_a (_mm256_set1_epi8 1)
  let v_z_plus1 := _mm256_add_epi8 v_z (_mm256_set1_epi8 1)
  let mask_lo := _mm256_cmpgt_epi8 v_off v_a_minus1
  let mask_hi := _mm256_cmpgt_epi8 v_z_plus1 v_off
  _mm256_and_si256 mask_lo mask_hi

/-- The `is_upper` mask of one iteration of the lane loop of
`case_convert_simd_avx2`, computed from the loaded vector `v`. -/
def lane_is_upper (v : M256i) : M256i :=
  let v_0x80 := _mm256_set1_epi8 0x80
  let v_A := _mm256_set1_epi8 65
  let v_Z := _mm256_set1_epi8 90
  let v_off := _mm256_xor_si256 v v_0x80
  let v_A_minus1 := _mm256_sub_epi8 v_A (_mm256_set1_epi8 1)
  let v_Z_plus1 := _mm256_add_epi8 v_Z (_mm256_set1_epi8 1)
  let mask_A_lo := _mm256_cmpgt_epi8 v_off v_A_minus1
  let mask_A_hi := _mm256_cmpgt_epi8 v_Z_plus1 v_off
  _mm256_and_si256 mask_A_lo mask_A_hi

/-- The register computation of one iteration of the lane loop of
`case_convert_simd_avx2`, from the loaded vector `v` to the stored `result`. -/
def lane_result (v : M256i) (to_upper : Bool) : M256i :=
  let v_delta := _mm256_set1_epi8 0x20
  let is_lower := lane_is_lower v
  let is_upper := lane_is_upper v
  if to_upper then
    let delta_mask := _mm256_and_si256 is_lower v_delta
    _mm256_sub_epi8 v delta_mask
  else
    let delta_mask := _mm256_and_si256 is_upper v_delta
    _mm256_add_epi8 v delta_mask

/-- One iteration of the lane loop of `case_convert_simd_avx2` apart from
`offset += V_BYTES`: load at `ptr = text + offset`, compute, store at `ptr`. -/
def lane_step (to_upper : Bool) (offset : Nat) (text : List Byte) : Option (List Byte) :=
  match _mm256_loadu_si256 text offset with
  | none => none
  | some v => _mm256_storeu_si256 text offset (lane_result v to_upper)

/-- The lane loop `for (size_t i = 0; i < nvec; ++i) { ...; offset += V_BYTES; }`:
`n` iterations remain; returns the buffer and the final `offset`. -/
def lane_loop (to_upper : Bool) : Nat → Nat → List Byte → Option (List Byte × Nat)
  | 0, offset, text => some (text, offset)
  | n + 1, offset, text =>
    match lane_step to_upper offset text with
    | none => none
    | some text1 => lane_loop to_upper n (offset + V_BYTES) text1

/-- Function `void case_convert_simd_avx2(uint8_t* text, size_t len, bool to_upper)`;
the result is the buffer after the call. -/
def case_convert_simd_avx2 (text : List Byte) (len : Nat) (to_upper : Bool) :
    Option (List Byte) :=
  let nvec := len / V_BYTES
  match lane_loop to_upper nvec 0 text with
  | none => none
  | some (text1, offset) =>
    let tail := len - offset
    if tail ≠ 0 then case_convert_serial_tail text1 offset tail to_upper else some text1

/-- The standard 64-bit FNV-1a hash (Fowler, Noll, Vo): offset basis
`14695981039346656037 = 0xcbf29ce484222325`, prime `1099511628211 = 0x100000001b3`,
for each byte XOR then multiply, arithmetic modulo `2 ^ 64`. -/
def fnv1a64_standard (data : List Byte) : Nat :=
  data.foldl (fun h b => ((h ^^^ b.val) * 0x100000001b3) % 2 ^ 64) 0xcbf29ce484222325

/-! ## Per-byte views used to state what the loops compute -/

/-- What one iteration of a scalar loop does to the byte it visits. -/
def serial_byte (to_upper : Bool) (c : Byte) : Byte :=
  if to_upper then
    if 97 ≤ c.val ∧ c.val ≤ 122 then Byte.ofInt ((c.val : Int) - 0x20) else c
  else
    if 65 ≤ c.val ∧ c.val ≤ 90 then Byte.ofInt ((c.val : Int) + 0x20) else c

/-- The mask byte `is_lower` of a single lane holding `c`: the operations of
`lane_is_lower` on one lane. -/
def is_lower_byte (c : Byte) : Byte :=
  let v_off := Byte.ofNat (c.val ^^^ (0x80 : Byte).val)
  let a_minus1 := Byte.ofInt (((97 : Byte).val : Int) - ((1 : Byte).val : Int))
  let z_plus1 := Byte.ofInt (((122 : Byte).val : Int) + ((1 : Byte).val : Int))
  let mask_lo : Byte := if v_off.toInt8 > a_minus1.toInt8 then 0xFF else 0
  let mask_hi : Byte := if z_plus1.toInt8 > v_off.toInt8 then 0xFF else 0
  Byte.ofNat (mask_lo.val &&& mask_hi.val)

/-- The mask byte `is_upper` of a single lane holding `c`: the operations of
`lane_is_upper` on one lane. -/
def is_upper_byte (c : Byte) : Byte :=
  let v_off := Byte.ofNat (c.val ^^^ (0x80 : Byte).val)
  let A_minus1 := Byte.ofInt (((65 : Byte).val : Int) - ((1 : Byte).val : Int))
  let Z_plus1 := Byte.ofInt (((90 : Byte).val : Int) + ((1 : Byte).val : Int))
  let mask_lo : Byte := if v_off.toInt8 > A_minus1.toInt8 then 0xFF else 0
  let mask_hi : Byte := if Z_plus1.toInt8 > v_off.toInt8 then 0xFF else 0
  Byte.ofNat (mask_lo.val &&& mask_hi.val)

/-- The byte stored by a lane step for a single lane holding `c`: the operations
of `lane_result` on one lane. -/
def lane_byte (to_upper : Bool) (c : Byte) : Byte :=
  if to_upper then
    Byte.ofInt ((c.val : Int) - ((Byte.ofNat ((is_lower_byte c).val &&& (0x20 : Byte).val)).val : Int))
  else
    Byte.ofInt ((c.val : Int) + ((Byte.ofNat ((is_upper_byte c).val &&& (0x20 : Byte).val)).val : Int))

/-- Number of bytes covered by full lanes: `V_BYTES * (len / V_BYTES)`. -/
def lane_bytes (len : Nat) : Nat := V_BYTES * (len / V_BYTES)

/-- One iteration of the loop of `fnv1a64` on accumulator `h` and byte `b`:
`h ^= b; h *= PRIME;` with 64-bit wrap-around. -/
def fnv1a64_step (h : Nat) (b : Byte) : Nat :=
  ((h ^^^ b.val) * 1099511628211) % 2 ^ 64

/-! ## Lists: lane-wise operations against broadcast constants -/

theorem zipWith_replicate_right {α β γ : Type} (f : α → β → γ) (c : β) :
    ∀ (v : List α) (n : Nat), v.length ≤ n →
      List.zipWith f v (List.replicate n c) = v.map (fun x => f x c)
  | [], _, _ => by simp
  | x :: v, 0, h => by simp at h
  | x :: v, n + 1, h => by
    have h1 : v.length ≤ n := by simpa using h
    simp [List.replicate_succ, zipWith_replicate_right f c v n h1]

theorem zipWith_replicate_left {α β γ : Type} (f : α → β → γ) (c : α) :
    ∀ (v : List β) (n : Nat), v.length ≤ n →
      List.zipWith f (List.replicate n c) v = v.map (fun x => f c x)
  | [], _, _ => by simp
  | x :: v, 0, h => by simp at h
  | x :: v, n + 1, h => by
    have h1 : v.length ≤ n := by simpa using h
    simp [List.replicate_succ, zipWith_replicate_left f c v n h1]

theorem zipWith_map_map_same {α β γ δ : Type} (f : β → γ → δ) (a : α → β) (b : α → γ) :
    ∀ v : List α, List.zipWith f (v.map a) (v.map b) = v.map (fun x => f (a x) (b x))
  | [] => by simp
  | x :: v => by simp [zipWith_map_map_same f a b v]

theorem zipWith_self_map {α γ δ : Type} (f : α → γ → δ) (b : α → γ) :
    ∀ v : List α, List.zipWith f v (v.map b) = v.map (fun x => f x (b x))
  | [] => by simp
  | x :: v => by simp [zipWith_self_map f b v]

theorem lane_is_lower_eq (v : M256i) (hv : v.length ≤ 32) :
    lane_is_lower v = v.map is_lower_byte := by
  unfold lane_is_lower
  simp only [_mm256_xor_si256, _mm256_and_si256, _mm256_cmpgt_epi8, _mm256_sub_epi8,
    _mm256_add_epi8, _mm256_set1_epi8]
  rw [zipWith_replicate_right _ _ v 32 hv]
  simp only [List.zipWith_replicate, Nat.min_self]
  rw [zipWith_replicate_right _ _ _ 32 (by simpa using hv),
    zipWith_replicate_left _ _ _ 32 (by simpa using hv)]
  rw [List.map_map, List.map_map, zipWith_map_map_same]
  rfl

theorem lane_is_upper_eq (v : M256i) (hv : v.length ≤ 32) :
    lane_is_upper v = v.map is_upper_byte := by
  unfold lane_is_upper
  simp only [_mm256_xor_si256, _mm256_and_si256, _mm256_cmpgt_epi8, _mm256_sub_epi8,
    _mm256_add_epi8, _mm256_set1_epi8]
  rw [zipWith_replicate_right _ _ v 32 hv]
  simp only [List.zipWith_replicate, Nat.min_self]
  rw [zipWith_replicate_right _ _ _ 32 (by simpa using hv),
    zipWith_replicate_left _ _ _ 32 (by simpa using hv)]
  rw [List.map_map, List.map_map, zipWith_map_map_same]
  rfl

/-- A lane step computes `lane_byte` in every lane. -/
theorem lane_result_eq (v : M256i) (hv : v.length ≤ 32) (to_upper : Bool) :
    lane_result v to_upper = v.map (lane_byte to_upper) := by
  unfold lane_result
  simp only [lane_is_lower_eq v hv, lane_is_upper_eq v hv]
  simp only [_mm256_and_si256, _mm256_sub_epi8, _mm256_add_epi8, _mm256_set1_epi8]
  rw [zipWith_replicate_right _ _ _ 32 (by simpa using hv),
    zipWith_replicate_right _ _ _ 32 (by simpa using hv)]
  cases to_upper
  · simp only [Bool.false_eq_true, if_false, List.map_map, zipWith_self_map]
    rfl
  · simp only [if_true, List.map_map, zipWith_self_map]
    rfl

/-! ## The lane loop -/

theorem lane_step_append (to_upper : Bool) (pre lane rest : List Byte)
    (hl : lane.length = 32) :
    lane_step to_upper pre.length (pre ++ lane ++ rest)
      = some (pre ++ lane.map (lane_byte to_upper) ++ rest) := by
  have hload : _mm256_loadu_si256 (pre ++ lane ++ rest) pre.length = some lane := by
    unfold _mm256_loadu_si256
    rw [if_pos (by simp [hl])]
    simp [List.append_assoc, List.take_append_of_le_length, hl]
  have hstore : ∀ w : List Byte, w.length = 32 →
      _mm256_storeu_si256 (pre ++ lane ++ rest) pre.length w = some (pre ++ w ++ rest) := by
    intro w hw
    unfold _mm256_storeu_si256
    rw [if_pos (by simp [hl])]
    have h1 : List.take pre.length (pre ++ lane ++ rest) = pre := by
      simp [List.append_assoc]
    have h2 : List.drop (pre.length + 32) (pre ++ lane ++ rest) = rest := by
      rw [← hl, ← List.length_append, List.drop_left]
    have h3 : List.take 32 w = w := by
      rw [← hw, List.take_length]
    rw [h1, h2, h3]
  unfold lane_step
  rw [hload]
  simp only
  rw [lane_result_eq lane (by omega), hstore _ (by simp [hl])]

theorem lane_loop_append (to_upper : Bool) :
    ∀ (n : Nat) (pre mid rest : List Byte), mid.length = 32 * n →
      lane_loop to_upper n pre.length (pre ++ mid ++ rest)
        = some (pre ++ mid.map (lane_byte to_upper) ++ rest, pre.length + 32 * n)
  | 0, pre, mid, rest, h => by
    have : mid = [] := List.eq_nil_of_length_eq_zero (by simpa using h)
    subst this
    simp [lane_loop]
  | n + 1, pre, mid, rest, h => by
    have hsplit : mid = mid.take 32 ++ mid.drop 32 := (List.take_append_drop 32 mid).symm
    have h1 : (mid.take 32).length = 32 := by
      rw [List.length_take]; omega
    have h2 : (mid.drop 32).length = 32 * n := by
      rw [List.length_drop]; omega
    have ih := lane_loop_append to_upper n (pre ++ (mid.take 32).map (lane_byte to_upper))
      (mid.drop 32) rest h2
    have e1 : pre ++ mid ++ rest = pre ++ mid.take 32 ++ (mid.drop 32 ++ rest) := by
      conv_lhs => rw [hsplit]
      simp only [List.append_assoc]
    rw [lane_loop, e1, lane_step_append to_upper pre (mid.take 32) _ h1]
    simp only
    have e2 : pre ++ (mid.take 32).map (lane_byte to_upper) ++ (mid.drop 32 ++ rest)
        = pre ++ (mid.take 32).map (lane_byte to_upper) ++ mid.drop 32 ++ rest := by
      simp [List.append_assoc]
    have e3 : pre.length + V_BYTES = (pre ++ (mid.take 32).map (lane_byte to_upper)).length := by
      rw [List.length_append, List.length_map, h1, V_BYTES]
    rw [e2, e3, ih]
    congr 1
    congr 1
    · rw [List.append_assoc pre, ← List.map_append, ← hsplit]
    · rw [List.length_append, List.length_map, h1]; omega

/-! ## The scalar loops -/

/-- A counted loop whose body rewrites the byte at `ptr + i` with `f` maps `f`
over the visited range and leaves the rest of the buffer alone. -/
theorem forLoop_map (body : Nat → List Byte → Option (List Byte)) (f : Byte → Byte)
    (ptr : Nat)
    (hbody : ∀ (pre : List Byte) (c : Byte) (rest : List Byte) (i : Nat),
      pre.length = ptr + i → body i (pre ++ c :: rest) = some (pre ++ f c :: rest)) :
    ∀ (mid pre post : List Byte) (i : Nat), pre.length = ptr + i →
      forLoop body mid.length i (pre ++ mid ++ post) = some (pre ++ mid.map f ++ post)
  | [], pre, post, i, _ => by simp [forLoop]
  | c :: mid, pre, post, i, h => by
    have ih := forLoop_map body f ptr hbody mid (pre ++ [f c]) post (i + 1)
      (by rw [List.length_append, h]; simp; omega)
    have e1 : pre ++ c :: mid ++ post = pre ++ c :: (mid ++ post) := by simp
    rw [List.length_cons, forLoop, e1, hbody pre c (mid ++ post) i h]
    simp only
    have e2 : pre ++ f c :: (mid ++ post) = pre ++ [f c] ++ mid ++ post := by simp
    rw [e2, ih]
    simp

theorem load8_append (pre : List Byte) (c : Byte) (rest : List Byte) :
    load8 (pre ++ c :: rest) pre.length = some c := by
  rw [load8, List.getElem?_append_right (Nat.le_refl _)]
  simp

theorem store8_append (pre : List Byte) (c v : Byte) (rest : List Byte) :
    store8 (pre ++ c :: rest) pre.length v = some (pre ++ v :: rest) := by
  simp [store8]

theorem tail_upper_body_append (ptr : Nat) (pre : List Byte) (c : Byte) (rest : List Byte)
    (i : Nat) (h : pre.length = ptr + i) :
    case_convert_serial_tail_upper_body ptr i (pre ++ c :: rest)
      = some (pre ++ serial_byte true c :: rest) := by
  unfold case_convert_serial_tail_upper_body
  rw [← h, load8_append]
  simp only [serial_byte, if_true]
  split
  · exact store8_append pre c _ rest
  · rfl

theorem tail_lower_body_append (ptr : Nat) (pre : List Byte) (c : Byte) (rest : List Byte)
    (i : Nat) (h : pre.length = ptr + i) :
    case_convert_serial_tail_lower_body ptr i (pre ++ c :: rest)
      = some (pre ++ serial_byte false c :: rest) := by
  unfold case_convert_serial_tail_lower_body
  rw [← h, load8_append]
  simp only [serial_byte, Bool.false_eq_true, if_false]
  split
  · exact store8_append pre c _ rest
  · rfl

theorem serial_upper_body_eq (i : Nat) (text : List Byte) :
    case_convert_serial_upper_body i text = case_convert_serial_tail_upper_body 0 i text := by
  simp [case_convert_serial_upper_body, case_convert_serial_tail_upper_body]

theorem serial_lower_body_eq (i : Nat) (text : List Byte) :
    case_convert_serial_lower_body i text = case_convert_serial_tail_lower_body 0 i text := by
  simp [case_convert_serial_lower_body, case_convert_serial_tail_lower_body]

/-- The tail handler run on `mid`, placed between `pre` and `post`. -/
theorem case_convert_serial_tail_append (pre mid post : List Byte) (to_upper : Bool) :
    case_convert_serial_tail (pre ++ mid ++ post) pre.length mid.length to_upper
      = some (pre ++ mid.map (serial_byte to_upper) ++ post) := by
  unfold case_convert_serial_tail
  cases to_upper
  · simp only [Bool.false_eq_true, if_false]
    exact forLoop_map _ _ pre.length
      (fun p c r i h => tail_lower_body_append pre.length p c r i h) mid pre post 0 rfl
  · simp only [if_true]
    exact forLoop_map _ _ pre.length
      (fun p c r i h => tail_upper_body_append pre.length p c r i h) mid pre post 0 rfl

/-- The scalar kernel maps `serial_byte` over the whole buffer. -/
theorem case_convert_serial_eq (B : List Byte) (to_upper : Bool) :
    case_convert_serial B B.length to_upper = some (B.map (serial_byte to_upper)) := by
  have h := case_convert_serial_tail_append [] B [] to_upper
  simp only [List.nil_append, List.append_nil, List.length_nil] at h
  rw [← h]
  unfold case_convert_serial case_convert_serial_tail
  have e1 : case_convert_serial_upper_body = case_convert_serial_tail_upper_body 0 := by
    funext i t; exact serial_upper_body_eq i t
  have e2 : case_convert_serial_lower_body = case_convert_serial_tail_lower_body 0 := by
    funext i t; exact serial_lower_body_eq i t
  rw [e1, e2]

/-- The vector kernel maps `lane_byte` over the bytes covered by full lanes and
`serial_byte` over the remaining tail. -/
theorem case_convert_simd_avx2_eq (B : List Byte) (to_upper : Bool) :
    case_convert_simd_avx2 B B.length to_upper
      = some ((B.take (lane_bytes B.length)).map (lane_byte to_upper)
          ++ (B.drop (lane_bytes B.length)).map (serial_byte to_upper)) := by
  have hk : lane_bytes B.length ≤ B.length := by
    unfold lane_bytes V_BYTES; omega
  have hsplit : B = [] ++ B.take (lane_bytes B.length) ++ B.drop (lane_bytes B.length) := by
    simp
  have hlen : (B.take (lane_bytes B.length)).length = 32 * (B.length / V_BYTES) := by
    rw [List.length_take, Nat.min_eq_left hk]; rfl
  have hloop := lane_loop_append to_upper (B.length / V_BYTES) []
    (B.take (lane_bytes B.length)) (B.drop (lane_bytes B.length)) hlen
  rw [← hsplit] at hloop
  simp only [List.length_nil] at hloop
  simp only [case_convert_simd_avx2, hloop, List.nil_append, Nat.zero_add]
  have htail : B.length - 32 * (B.length / V_BYTES) = (B.drop (lane_bytes B.length)).length := by
    rw [List.length_drop]; rfl
  by_cases h0 : B.length - 32 * (B.length / V_BYTES) = 0
  · have hnil : B.drop (lane_bytes B.length) = [] :=
      List.eq_nil_of_length_eq_zero (by rw [← htail]; exact h0)
    simp [h0, hnil]
  · rw [if_pos h0, htail]
    have hpl : 32 * (B.length / V_BYTES)
        = ((B.take (lane_bytes B.length)).map (lane_byte to_upper)).length := by
      rw [List.length_map, hlen]
    have := case_convert_serial_tail_append
      ((B.take (lane_bytes B.length)).map (lane_byte to_upper))
      (B.drop (lane_bytes B.length)) [] to_upper
    simp only [List.append_nil] at this
    rw [hpl]
    exact this

/-! ## Per-byte facts, checked on all 256 byte values -/

theorem serial_byte_val_upper : ∀ c : Byte,
    (serial_byte true c).val = if 97 ≤ c.val ∧ c.val ≤ 122 then c.val - 32 else c.val := by
  decide

theorem serial_byte_val_lower : ∀ c : Byte,
    (serial_byte false c).val = if 65 ≤ c.val ∧ c.val ≤ 90 then c.val + 32 else c.val := by
  decide

theorem serial_byte_idem : ∀ (m : Bool) (c : Byte),
    serial_byte m (serial_byte m c) = serial_byte m c := by
  decide

theorem lane_byte_idem : ∀ (m : Bool) (c : Byte),
    lane_byte m (lane_byte m c) = lane_byte m c := by
  decide

theorem serial_byte_round_trip : ∀ c : Byte, ¬ (65 ≤ c.val ∧ c.val ≤ 90) →
    serial_byte false (serial_byte true c) = c := by
  decide

/-! ## The claims -/

/-- C1 (equivalence of the vector kernel and the scalar kernel) fails on the code:
on the buffer of 32 bytes `'a'` with mode to-upper the vector kernel returns the
buffer unchanged, while the scalar kernel returns 32 bytes `'A'`. -/
theorem simd_differs_from_serial_on_lower_a :
    case_convert_simd_avx2 (List.replicate 32 97) 32 true = some (List.replicate 32 97) ∧
    case_convert_serial (List.replicate 32 97) 32 true = some (List.replicate 32 65) ∧
    case_convert_simd_avx2 (List.replicate 32 97) (List.replicate 32 (97 : Byte)).length true
      ≠ case_convert_serial (List.replicate 32 97) (List.replicate 32 (97 : Byte)).length true := by
  decide

/-- C2: for every buffer `B` and index `i < len(B)`, `case_convert_serial` returns a
buffer whose byte at `i` is `B[i] - 32` when `to_upper` and `97 ≤ B[i] ≤ 122`,
`B[i] + 32` when not `to_upper` and `65 ≤ B[i] ≤ 90`, and `B[i]` otherwise. -/
theorem case_convert_serial_pointwise (B : List Byte) (i : Nat) (h : i < B.length) :
    (∃ out c, case_convert_serial B B.length true = some out ∧ out[i]? = some c ∧
      c.val = if 97 ≤ B[i].val ∧ B[i].val ≤ 122 then B[i].val - 32 else B[i].val) ∧
    (∃ out c, case_convert_serial B B.length false = some out ∧ out[i]? = some c ∧
      c.val = if 65 ≤ B[i].val ∧ B[i].val ≤ 90 then B[i].val + 32 else B[i].val) := by
  refine ⟨⟨_, serial_byte true B[i], case_convert_serial_eq B true, ?_,
      serial_byte_val_upper B[i]⟩,
    ⟨_, serial_byte false B[i], case_convert_serial_eq B false, ?_,
      serial_byte_val_lower B[i]⟩⟩
  · simp [List.getElem?_map, List.getElem?_eq_getElem h]
  · simp [List.getElem?_map, List.getElem?_eq_getElem h]

/-- Witness of C2 on the buffer `"aB1"` at index 0. -/
theorem case_convert_serial_pointwise_witness :
    0 < ([97, 66, 49] : List Byte).length ∧
    (∃ out c, case_convert_serial ([97, 66, 49] : List Byte) 3 true = some out ∧
      out[0]? = some c ∧ c.val = 65) ∧
    (∃ out c, case_convert_serial ([97, 66, 49] : List Byte) 3 false = some out ∧
      out[0]? = some c ∧ c.val = 97) :=
  ⟨by decide, case_convert_serial_pointwise [97, 66, 49] 0 (by decide)⟩

/-- C3 (range locality of the vector kernel) fails on the code: in the buffer of
32 bytes `0xE1` (225), mode to-upper, every byte is outside `'a'..'z'` (97..122),
yet the vector kernel replaces every one of them by `0xC1` (193). -/
theorem simd_changes_byte_outside_source_range :
    ¬ (97 ≤ (225 : Byte).val ∧ (225 : Byte).val ≤ 122) ∧
    case_convert_simd_avx2 (List.replicate 32 225) (List.replicate 32 (225 : Byte)).length true
      = some (List.replicate 32 193) ∧
    (List.replicate 32 (193 : Byte))[0]? ≠ (List.replicate 32 (225 : Byte))[0]? := by
  decide

/-- C4 (33 bytes `'A'`, mode to-lower, give 33 bytes `'a'`) fails on the code: the
vector kernel leaves the 32 bytes of the full lane at `'A'` (65) and only the tail
byte becomes `'a'` (97). -/
theorem simd_33_upper_A_to_lower :
    case_convert_simd_avx2 (List.replicate 33 65) (List.replicate 33 (65 : Byte)).length false
      = some (List.replicate 32 65 ++ [97]) ∧
    List.replicate 32 (65 : Byte) ++ [97] ≠ List.replicate 33 97 := by
  decide

/-- C5: applying the same mode twice gives the same buffer as applying it once,
for the vector kernel `case_convert_simd_avx2` and for the scalar kernel
`case_convert_serial`, on every buffer and in both modes. -/
theorem case_convert_idempotent (B : List Byte) (M : Bool) :
    (∃ B1, case_convert_simd_avx2 B B.length M = some B1 ∧
      case_convert_simd_avx2 B1 B1.length M = some B1) ∧
    (∃ B1, case_convert_serial B B.length M = some B1 ∧
      case_convert_serial B1 B1.length M = some B1) := by
  constructor
  · refine ⟨_, case_convert_simd_avx2_eq B M, ?_⟩
    have hk : lane_bytes B.length ≤ B.length := by
      unfold lane_bytes V_BYTES; omega
    have hpre : ((B.take (lane_bytes B.length)).map (lane_byte M)).length
        = lane_bytes B.length := by
      rw [List.length_map, List.length_take, Nat.min_eq_left hk]
    have hlen : ((B.take (lane_bytes B.length)).map (lane_byte M)
        ++ (B.drop (lane_bytes B.length)).map (serial_byte M)).length = B.length := by
      rw [List.length_append, hpre, List.length_map, List.length_drop]; omega
    rw [case_convert_simd_avx2_eq, hlen]
    have ht : List.take (lane_bytes B.length)
        ((B.take (lane_bytes B.length)).map (lane_byte M)
          ++ (B.drop (lane_bytes B.length)).map (serial_byte M))
        = (B.take (lane_bytes B.length)).map (lane_byte M) := by
      exact List.take_left' hpre
    have hd : List.drop (lane_bytes B.length)
        ((B.take (lane_bytes B.length)).map (lane_byte M)
          ++ (B.drop (lane_bytes B.length)).map (serial_byte M))
        = (B.drop (lane_bytes B.length)).map (serial_byte M) := by
      exact List.drop_left' hpre
    rw [ht, hd, List.map_map, List.map_map]
    have e1 : lane_byte M ∘ lane_byte M = lane_byte M := by
      funext c; exact lane_byte_idem M c
    have e2 : serial_byte M ∘ serial_byte M = serial_byte M := by
      funext c; exact serial_byte_idem M c
    rw [e1, e2]
  · refine ⟨_, case_convert_serial_eq B M, ?_⟩
    have h := case_convert_serial_eq (B.map (serial_byte M)) M
    rw [List.map_map] at h
    have e2 : serial_byte M ∘ serial_byte M = serial_byte M := by
      funext c; exact serial_byte_idem M c
    rw [e2] at h
    exact h

/-- C6 (to-upper then to-lower through the vector kernel returns a buffer without
bytes in `'A'..'Z'`) fails on the code: the buffer of 32 bytes `0xC1` (193) has no
byte in 65..90, to-upper leaves it unchanged, and to-lower then turns every byte
into `0xE1` (225). -/
theorem simd_round_trip_fails_on_high_bytes :
    (∀ b ∈ List.replicate 32 (193 : Byte), ¬ (65 ≤ b.val ∧ b.val ≤ 90)) ∧
    case_convert_simd_avx2 (List.replicate 32 193) (List.replicate 32 (193 : Byte)).length true
      = some (List.replicate 32 193) ∧
    case_convert_simd_avx2 (List.replicate 32 193) (List.replicate 32 (193 : Byte)).length false
      = some (List.replicate 32 225) ∧
    List.replicate 32 (225 : Byte) ≠ List.replicate 32 193 := by
  decide

/-- C7: for every buffer `B` without a byte in `'A'..'Z'` (65..90), the scalar
kernel with `to_upper = true` followed by the scalar kernel with `to_upper = false`
returns exactly `B`. -/
theorem case_convert_serial_round_trip (B : List Byte)
    (hB : ∀ b ∈ B, ¬ (65 ≤ b.val ∧ b.val ≤ 90)) :
    ∃ U, case_convert_serial B B.length true = some U ∧
      case_convert_serial U U.length false = some B := by
  refine ⟨_, case_convert_serial_eq B true, ?_⟩
  rw [case_convert_serial_eq, List.map_map]
  congr 1
  conv_rhs => rw [← List.map_id B]
  apply List.map_congr_left
  intro b hb
  exact serial_byte_round_trip b (hB b hb)

/-- Witness of C7 on the buffer `"ab1"`. -/
theorem case_convert_serial_round_trip_witness :
    (∀ b ∈ ([97, 98, 49] : List Byte), ¬ (65 ≤ b.val ∧ b.val ≤ 90)) ∧
    ∃ U, case_convert_serial ([97, 98, 49] : List Byte) ([97, 98, 49] : List Byte).length true
        = some U ∧
      case_convert_serial U U.length false = some [97, 98, 49] :=
  ⟨by decide, case_convert_serial_round_trip [97, 98, 49] (by decide)⟩

/-- C8 (checksum stability under the vector kernel) fails on the code: the buffer
of 32 bytes `0xE1` (225) has no byte in `'a'..'z'`, the vector kernel in mode
to-upper turns it into 32 bytes `0xC1` (193), and the checksum changes from
`389499385482576867` to `151525743140212771`. -/
theorem simd_changes_checksum_without_source_bytes :
    (∀ b ∈ List.replicate 32 (225 : Byte), ¬ (97 ≤ b.val ∧ b.val ≤ 122)) ∧
    case_convert_simd_avx2 (List.replicate 32 225) 32 true = some (List.replicate 32 193) ∧
    fnv1a64 (List.replicate 32 225) = 389499385482576867 ∧
    fnv1a64 (List.replicate 32 193) = 151525743140212771 ∧
    fnv1a64 (List.replicate 32 193) ≠ fnv1a64 (List.replicate 32 225) := by
  decide

/-- C9: the checksum of a byte sequence followed by one more byte `b` is the
checksum of the sequence XORed with `b` and then multiplied by `1099511628211`
modulo `2 ^ 64`. -/
theorem fnv1a64_append_byte (B : List Byte) (b : Byte) :
    fnv1a64 (B ++ [b]) = ((fnv1a64 B ^^^ b.val) * 1099511628211) % 2 ^ 64 := by
  simp [fnv1a64, List.foldl_append]

/-- C10 (`fnv1a64` is the standard 64-bit FNV-1a hash) fails on the code: the
accumulator starts at `1469598103934665603`, not at the standard offset basis
`14695981039346656037`, so already the empty buffer hashes differently, and so
does the buffer `"a"`. -/
theorem fnv1a64_differs_from_standard :
    fnv1a64 [] = 1469598103934665603 ∧
    fnv1a64_standard [] = 14695981039346656037 ∧
    fnv1a64 [] ≠ fnv1a64_standard [] ∧
    fnv1a64 [97] ≠ fnv1a64_standard [97] := by
  decide

/-! ## Full lanes, the tail and the bounds of the vector kernel -/

theorem lane_byte_val_upper : ∀ c : Byte,
    (lane_byte true c).val = if 225 ≤ c.val ∧ c.val ≤ 250 then c.val - 32 else c.val := by
  decide

theorem lane_byte_val_lower : ∀ c : Byte,
    (lane_byte false c).val = if 193 ≤ c.val ∧ c.val ≤ 218 then c.val + 32 else c.val := by
  decide

theorem lane_byte_ascii : ∀ (m : Bool) (c : Byte), c.val < 128 → lane_byte m c = c := by
  decide

theorem lane_bytes_le (len : Nat) : lane_bytes len ≤ len := by
  unfold lane_bytes V_BYTES; omega

/-- C11: the tail handler of the vector program, run from the start of a buffer,
and the standalone scalar kernel produce the same buffer, for every buffer, every
length argument and both modes; on the whole buffer both return a result. -/
theorem case_convert_serial_tail_eq_serial (B : List Byte) (M : Bool) :
    (∀ len, case_convert_serial_tail B 0 len M = case_convert_serial B len M) ∧
    ∃ out, case_convert_serial_tail B 0 B.length M = some out ∧
      case_convert_serial B B.length M = some out := by
  have e1 : case_convert_serial_upper_body = case_convert_serial_tail_upper_body 0 := by
    funext i t; exact serial_upper_body_eq i t
  have e2 : case_convert_serial_lower_body = case_convert_serial_tail_lower_body 0 := by
    funext i t; exact serial_lower_body_eq i t
  have h : ∀ len, case_convert_serial_tail B 0 len M = case_convert_serial B len M := by
    intro len
    unfold case_convert_serial case_convert_serial_tail
    rw [e1, e2]
  exact ⟨h, _, (h B.length).trans (case_convert_serial_eq B M), case_convert_serial_eq B M⟩

/-- C13: the buffer produced by `case_convert_simd_avx2` and the buffer produced by
`case_convert_serial` have exactly as many bytes as the input, for every buffer
and both modes. -/
theorem case_convert_length_invariant (B : List Byte) (M : Bool) :
    (∃ out, case_convert_simd_avx2 B B.length M = some out ∧ out.length = B.length) ∧
    (∃ out, case_convert_serial B B.length M = some out ∧ out.length = B.length) := by
  refine ⟨⟨_, case_convert_simd_avx2_eq B M, ?_⟩, ⟨_, case_convert_serial_eq B M, ?_⟩⟩
  · have hk := lane_bytes_le B.length
    rw [List.length_append, List.length_map, List.length_map, List.length_take,
      List.length_drop]
    omega
  · rw [List.length_map]

/-- C14: on the 6 bytes `"AbC123"` with mode to-lower both kernels return
`"abc123"`, and the checksum of that output is the left fold of
`h -> ((h XOR byte) * 1099511628211) mod 2^64` over its bytes from
`1469598103934665603`. -/
theorem scenario_AbC123_to_lower :
    case_convert_simd_avx2 [65, 98, 67, 49, 50, 51] 6 false = some [97, 98, 99, 49, 50, 51] ∧
    case_convert_serial [65, 98, 67, 49, 50, 51] 6 false = some [97, 98, 99, 49, 50, 51] ∧
    fnv1a64 [97, 98, 99, 49, 50, 51]
      = List.foldl (fun (h b : Nat) => ((h ^^^ b) * 1099511628211) % 2 ^ 64)
          1469598103934665603 [97, 98, 99, 49, 50, 51] := by
  decide

/-- C15: on the empty buffer, in either mode, the vector kernel runs zero lane
steps, has a zero-length tail, and returns the empty buffer; the scalar kernel
returns the empty buffer; the checksum of the empty buffer is
`1469598103934665603`. -/
theorem scenario_empty_buffer :
    (∀ M : Bool,
      ([] : List Byte).length / V_BYTES = 0 ∧
      lane_loop M (([] : List Byte).length / V_BYTES) 0 [] = some ([], 0) ∧
      ([] : List Byte).length - 0 = 0 ∧
      case_convert_simd_avx2 [] ([] : List Byte).length M = some [] ∧
      case_convert_serial [] ([] : List Byte).length M = some []) ∧
    fnv1a64 [] = 1469598103934665603 := by
  decide

/-- C16 (the lane masks are inclusive unsigned range tests for `'a'..'z'` and
`'A'..'Z'`) fails on the code: a lane holding `'a'` (97) gets `is_lower = 0x00` and
a lane holding `0xE1` (225) gets `is_lower = 0xFF`; a lane holding `'A'` (65) gets
`is_upper = 0x00` and a lane holding `0xC1` (193) gets `is_upper = 0xFF`. -/
theorem lane_masks_miss_ascii_letters :
    lane_is_lower (List.replicate 32 97) = List.replicate 32 0 ∧
    lane_is_lower (List.replicate 32 225) = List.replicate 32 0xFF ∧
    lane_is_upper (List.replicate 32 65) = List.replicate 32 0 ∧
    lane_is_upper (List.replicate 32 193) = List.replicate 32 0xFF := by
  decide

/-- After `k` lane steps, `k` at most the number of full lanes, the first `32 * k`
bytes are converted lane-wise, the rest is untouched and `offset` is `32 * k`. -/
theorem lane_loop_prefix (B : List Byte) (M : Bool) (k : Nat) (hk : 32 * k ≤ B.length) :
    lane_loop M k 0 B
      = some ((B.take (32 * k)).map (lane_byte M) ++ B.drop (32 * k), 32 * k) := by
  have hlen : (B.take (32 * k)).length = 32 * k := by
    rw [List.length_take]; omega
  have h := lane_loop_append M k [] (B.take (32 * k)) (B.drop (32 * k)) hlen
  simpa using h

/-- C12: on a buffer of `len` bytes the vector kernel never leaves the buffer.
For every `k < len / 32` the `k`-th lane step starts at `offset = 32 * k` with
`offset + 32 ≤ len`, succeeds on the bounds-checked buffer and changes nothing
outside `offset .. offset + 31`; after exactly `len / 32` steps `offset` is
`32 * (len / 32)`, the tail has `len - offset = len mod 32 < 32` bytes ending at
`len`, the tail handler succeeds there (the source skips the call when the tail is
empty, where the handler does nothing), and the whole kernel returns that buffer,
so the out-of-bounds branch is never taken. -/
theorem case_convert_simd_avx2_in_bounds (B : List Byte) (M : Bool) :
    (∀ k, k < B.length / V_BYTES →
      32 * k + 32 ≤ B.length ∧
      ∃ t t1, lane_loop M k 0 B = some (t, 32 * k) ∧ t.length = B.length ∧
        lane_step M (32 * k) t = some t1 ∧ t1.length = B.length ∧
        t1.take (32 * k) = t.take (32 * k) ∧
        t1.drop (32 * k + 32) = t.drop (32 * k + 32)) ∧
    (∃ t out, lane_loop M (B.length / V_BYTES) 0 B = some (t, 32 * (B.length / 32)) ∧
      t.length = B.length ∧
      B.length - 32 * (B.length / 32) = B.length % 32 ∧ B.length % 32 < 32 ∧
      32 * (B.length / 32) + B.length % 32 = B.length ∧
      case_convert_serial_tail t (32 * (B.length / 32)) (B.length % 32) M = some out ∧
      case_convert_simd_avx2 B B.length M = some out) := by
  constructor
  · intro k hk
    have hk1 : 32 * k + 32 ≤ B.length := by
      unfold V_BYTES at hk; omega
    have hpre : ((B.take (32 * k)).map (lane_byte M)).length = 32 * k := by
      rw [List.length_map, List.length_take]; omega
    have hlane : ((B.drop (32 * k)).take 32).length = 32 := by
      rw [List.length_take, List.length_drop]; omega
    have hsplit : B.drop (32 * k) = (B.drop (32 * k)).take 32 ++ B.drop (32 * k + 32) := by
      rw [← List.drop_drop, List.take_append_drop]
    have hstep := lane_step_append M ((B.take (32 * k)).map (lane_byte M))
      ((B.drop (32 * k)).take 32) (B.drop (32 * k + 32)) hlane
    rw [hpre, List.append_assoc, ← hsplit] at hstep
    refine ⟨hk1, _, _, lane_loop_prefix B M k (by omega), ?_, hstep, ?_, ?_, ?_⟩
    · rw [List.length_append, hpre, List.length_drop]; omega
    · rw [List.length_append, List.length_append, hpre, List.length_map, hlane,
        List.length_drop]
      omega
    · rw [List.append_assoc, List.take_left' hpre, List.take_left' hpre]
    · have h1 : ((B.take (32 * k)).map (lane_byte M)
          ++ ((B.drop (32 * k)).take 32).map (lane_byte M)).length = 32 * k + 32 := by
        rw [List.length_append, hpre, List.length_map, hlane]
      have h2 : ((B.take (32 * k)).map (lane_byte M)
          ++ (B.drop (32 * k)).take 32).length = 32 * k + 32 := by
        rw [List.length_append, hpre, hlane]
      rw [List.drop_left' h1]
      conv_rhs => rw [hsplit, ← List.append_assoc, List.drop_left' h2]
  · have hk : 32 * (B.length / V_BYTES) ≤ B.length := lane_bytes_le B.length
    have hloop := lane_loop_prefix B M (B.length / V_BYTES) hk
    have hpre : ((B.take (32 * (B.length / V_BYTES))).map (lane_byte M)).length
        = 32 * (B.length / 32) := by
      rw [List.length_map, List.length_take]; unfold V_BYTES; omega
    have hmid : (B.drop (32 * (B.length / V_BYTES))).length = B.length % 32 := by
      rw [List.length_drop]; unfold V_BYTES; omega
    have htail := case_convert_serial_tail_append
      ((B.take (32 * (B.length / V_BYTES))).map (lane_byte M))
      (B.drop (32 * (B.length / V_BYTES))) [] M
    rw [hpre, hmid, List.append_nil, List.append_nil] at htail
    refine ⟨_, _, hloop, ?_, by omega, by omega, by omega, htail, ?_⟩
    · rw [List.length_append, hpre, hmid]; omega
    · exact case_convert_simd_avx2_eq B M

/-- Witness of C12 on the buffer of 33 bytes `'A'`, mode to-lower, lane step 0. -/
theorem case_convert_simd_avx2_in_bounds_witness :
    0 < (List.replicate 33 (65 : Byte)).length / V_BYTES ∧
    (32 * 0 + 32 ≤ (List.replicate 33 (65 : Byte)).length ∧
      ∃ t t1, lane_loop false 0 0 (List.replicate 33 (65 : Byte)) = some (t, 32 * 0) ∧
        t.length = (List.replicate 33 (65 : Byte)).length ∧
        lane_step false (32 * 0) t = some t1 ∧
        t1.length = (List.replicate 33 (65 : Byte)).length ∧
        t1.take (32 * 0) = t.take (32 * 0) ∧
        t1.drop (32 * 0 + 32) = t.drop (32 * 0 + 32)) :=
  ⟨by decide, (case_convert_simd_avx2_in_bounds (List.replicate 33 65) false).1 0 (by decide)⟩

/-- C17: the last `len mod 32` bytes of the output of the vector kernel, those from
index `32 * (len / 32)` on, are the output of `case_convert_serial` run on the last
`len mod 32` bytes of the input; for `len < 32` the vector kernel returns what the
scalar kernel returns. -/
theorem case_convert_simd_avx2_tail_delegation (B : List Byte) (M : Bool) :
    ∃ out, case_convert_simd_avx2 B B.length M = some out ∧
      (B.drop (32 * (B.length / 32))).length = B.length % 32 ∧
      case_convert_serial (B.drop (32 * (B.length / 32))) (B.length % 32) M
        = some (out.drop (32 * (B.length / 32))) ∧
      (B.length < 32 →
        case_convert_simd_avx2 B B.length M = case_convert_serial B B.length M) := by
  have hk : 32 * (B.length / 32) ≤ B.length := by omega
  have hpre : ((B.take (32 * (B.length / 32))).map (lane_byte M)).length
      = 32 * (B.length / 32) := by
    rw [List.length_map, List.length_take]; omega
  have hmid : (B.drop (32 * (B.length / 32))).length = B.length % 32 := by
    rw [List.length_drop]; omega
  have hsimd : case_convert_simd_avx2 B B.length M
      = some ((B.take (32 * (B.length / 32))).map (lane_byte M)
          ++ (B.drop (32 * (B.length / 32))).map (serial_byte M)) :=
    case_convert_simd_avx2_eq B M
  refine ⟨_, hsimd, hmid, ?_, ?_⟩
  · rw [List.drop_left' hpre, ← hmid]
    exact case_convert_serial_eq _ M
  · intro hlt
    have h0 : 32 * (B.length / 32) = 0 := by omega
    rw [hsimd, case_convert_serial_eq, h0]
    simp

/-- Witness of C17 on the 6-byte buffer `"AbC123"`, mode to-lower. -/
theorem case_convert_simd_avx2_tail_delegation_witness :
    ([65, 98, 67, 49, 50, 51] : List Byte).length < 32 ∧
    case_convert_simd_avx2 [65, 98, 67, 49, 50, 51] ([65, 98, 67, 49, 50, 51] : List Byte).length
        false
      = case_convert_serial [65, 98, 67, 49, 50, 51] ([65, 98, 67, 49, 50, 51] : List Byte).length
        false :=
  ⟨by decide,
    (case_convert_simd_avx2_tail_delegation [65, 98, 67, 49, 50, 51] false).elim
      (fun _ h => h.2.2.2 (by decide))⟩

/-- C18: at every index `i` below `32 * (len / 32)` the vector kernel with
`to_upper = true` returns `B[i] - 32` when `225 ≤ B[i] ≤ 250` and `B[i]` otherwise,
and with `to_upper = false` returns `B[i] + 32` when `193 ≤ B[i] ≤ 218` and `B[i]`
otherwise; in both modes a byte below `0x80` at such an index is returned
unchanged. -/
theorem case_convert_simd_avx2_full_lane_pointwise (B : List Byte) (i : Nat)
    (h : i < 32 * (B.length / 32)) :
    ∃ b, B[i]? = some b ∧
      (∃ out c, case_convert_simd_avx2 B B.length true = some out ∧ out[i]? = some c ∧
        c.val = if 225 ≤ b.val ∧ b.val ≤ 250 then b.val - 32 else b.val) ∧
      (∃ out c, case_convert_simd_avx2 B B.length false = some out ∧ out[i]? = some c ∧
        c.val = if 193 ≤ b.val ∧ b.val ≤ 218 then b.val + 32 else b.val) ∧
      (b.val < 128 → ∀ M, ∃ out, case_convert_simd_avx2 B B.length M = some out ∧
        out[i]? = some b) := by
  have hi : i < B.length := by omega
  have hget : ∀ M, ((B.take (lane_bytes B.length)).map (lane_byte M)
      ++ (B.drop (lane_bytes B.length)).map (serial_byte M))[i]?
      = some (lane_byte M B[i]) := by
    intro M
    have hlt : i < ((B.take (lane_bytes B.length)).map (lane_byte M)).length := by
      rw [List.length_map, List.length_take]
      exact Nat.lt_min.mpr ⟨h, hi⟩
    have h1 : i < lane_bytes B.length := h
    rw [List.getElem?_append_left hlt, List.getElem?_map, List.getElem?_take_of_lt h1,
      List.getElem?_eq_getElem hi]
    rfl
  refine ⟨B[i], List.getElem?_eq_getElem hi,
    ⟨_, _, case_convert_simd_avx2_eq B true, hget true, lane_byte_val_upper B[i]⟩,
    ⟨_, _, case_convert_simd_avx2_eq B false, hget false, lane_byte_val_lower B[i]⟩, ?_⟩
  intro hb M
  refine ⟨_, case_convert_simd_avx2_eq B M, ?_⟩
  rw [hget M, lane_byte_ascii M B[i] hb]

/-- Witness of C18 on the buffer of 32 bytes `0xE1` (225) at index 0. -/
theorem case_convert_simd_avx2_full_lane_pointwise_witness :
    0 < 32 * ((List.replicate 32 (225 : Byte)).length / 32) ∧
    ∃ b, (List.replicate 32 (225 : Byte))[0]? = some b ∧
      (∃ out c, case_convert_simd_avx2 (List.replicate 32 225)
          (List.replicate 32 (225 : Byte)).length true = some out ∧ out[0]? = some c ∧
        c.val = if 225 ≤ b.val ∧ b.val ≤ 250 then b.val - 32 else b.val) ∧
      (∃ out c, case_convert_simd_avx2 (List.replicate 32 225)
          (List.replicate 32 (225 : Byte)).length false = some out ∧ out[0]? = some c ∧
        c.val = if 193 ≤ b.val ∧ b.val ≤ 218 then b.val + 32 else b.val) ∧
      (b.val < 128 → ∀ M, ∃ out, case_convert_simd_avx2 (List.replicate 32 225)
          (List.replicate 32 (225 : Byte)).length M = some out ∧ out[0]? = some b) :=
  ⟨by decide, case_convert_simd_avx2_full_lane_pointwise (List.replicate 32 225) 0 (by decide)⟩

/-! ## The checksum: every step is injective -/

theorem fnv1a64_eq_foldl_step (data : List Byte) :
    fnv1a64 data = data.foldl fnv1a64_step 1469598103934665603 := rfl

theorem fnv1a64_step_lt (h : Nat) (b : Byte) : fnv1a64_step h b < 2 ^ 64 :=
  Nat.mod_lt _ (by decide)

theorem byte_lt_two_pow_64 (b : Byte) : b.val < 2 ^ 64 :=
  Nat.lt_trans b.isLt (by decide)

/-- Multiplication by the odd constant `1099511628211` is injective modulo `2 ^ 64`. -/
theorem mul_prime_injective (x y : Nat) (hx : x < 2 ^ 64) (hy : y < 2 ^ 64)
    (h : (x * 1099511628211) % 2 ^ 64 = (y * 1099511628211) % 2 ^ 64) : x = y := by
  have hg : Nat.gcd (2 ^ 64) 1099511628211 = 1 := by decide
  have hmod : x ≡ y [MOD 2 ^ 64] := Nat.ModEq.cancel_right_of_coprime hg h
  have hmod2 : x % 2 ^ 64 = y % 2 ^ 64 := hmod
  rwa [Nat.mod_eq_of_lt hx, Nat.mod_eq_of_lt hy] at hmod2

theorem fnv1a64_step_injective_acc (h h2 : Nat) (b : Byte) (hh : h < 2 ^ 64)
    (hh2 : h2 < 2 ^ 64) (he : fnv1a64_step h b = fnv1a64_step h2 b) : h = h2 := by
  have hx := mul_prime_injective (h ^^^ b.val) (h2 ^^^ b.val)
    (Nat.xor_lt_two_pow hh (byte_lt_two_pow_64 b))
    (Nat.xor_lt_two_pow hh2 (byte_lt_two_pow_64 b)) he
  exact Nat.xor_left_injective hx

theorem fnv1a64_step_injective_byte (h : Nat) (b b2 : Byte) (hh : h < 2 ^ 64)
    (he : fnv1a64_step h b = fnv1a64_step h b2) : b = b2 := by
  have hx := mul_prime_injective (h ^^^ b.val) (h ^^^ b2.val)
    (Nat.xor_lt_two_pow hh (byte_lt_two_pow_64 b))
    (Nat.xor_lt_two_pow hh (byte_lt_two_pow_64 b2)) he
  exact Fin.ext (Nat.xor_right_injective hx)

theorem foldl_step_lt : ∀ (l : List Byte) (h : Nat), h < 2 ^ 64 →
    l.foldl fnv1a64_step h < 2 ^ 64
  | [], _, hh => hh
  | b :: l, h, _ => foldl_step_lt l (fnv1a64_step h b) (fnv1a64_step_lt h b)

theorem foldl_step_ne : ∀ (l : List Byte) (h h2 : Nat), h < 2 ^ 64 → h2 < 2 ^ 64 →
    h ≠ h2 → l.foldl fnv1a64_step h ≠ l.foldl fnv1a64_step h2
  | [], _, _, _, _, hne => hne
  | b :: l, h, h2, hh, hh2, hne =>
    foldl_step_ne l (fnv1a64_step h b) (fnv1a64_step h2 b) (fnv1a64_step_lt h b)
      (fnv1a64_step_lt h2 b) (fun he => hne (fnv1a64_step_injective_acc h h2 b hh hh2 he))

/-- Two buffers that differ in exactly one byte, in the middle of a common prefix
and a common suffix, have different checksums. -/
theorem fnv1a64_ne_of_split (pre suf : List Byte) (b b2 : Byte) (hb : b ≠ b2) :
    fnv1a64 (pre ++ b :: suf) ≠ fnv1a64 (pre ++ b2 :: suf) := by
  rw [fnv1a64_eq_foldl_step, fnv1a64_eq_foldl_step, List.foldl_append, List.foldl_append,
    List.foldl_cons, List.foldl_cons]
  have h0 : pre.foldl fnv1a64_step 1469598103934665603 < 2 ^ 64 :=
    foldl_step_lt pre _ (by decide)
  exact foldl_step_ne suf _ _ (fnv1a64_step_lt _ _) (fnv1a64_step_lt _ _)
    (fun he => hb (fnv1a64_step_injective_byte _ b b2 h0 he))

theorem split_at_index (B : List Byte) (i : Nat) (hi : i < B.length) :
    B = B.take i ++ B[i] :: B.drop (i + 1) := by
  rw [← List.drop_eq_getElem_cons hi, List.take_append_drop]

/-- C19: two byte sequences of the same length that differ at exactly one index
have different checksums. -/
theorem fnv1a64_detects_single_byte_change (B B2 : List Byte) (i : Nat)
    (hlen : B.length = B2.length) (hi : i < B.length)
    (hdiff : B[i]? ≠ B2[i]?) (hsame : ∀ j, j ≠ i → B[j]? = B2[j]?) :
    fnv1a64 B ≠ fnv1a64 B2 := by
  have hi2 : i < B2.length := hlen ▸ hi
  have htake : B.take i = B2.take i := by
    apply List.ext_getElem?
    intro j
    by_cases hj : j < i
    · rw [List.getElem?_take_of_lt hj, List.getElem?_take_of_lt hj]
      exact hsame j (by omega)
    · rw [List.getElem?_eq_none (by rw [List.length_take]; omega),
        List.getElem?_eq_none (by rw [List.length_take]; omega)]
  have hdrop : B.drop (i + 1) = B2.drop (i + 1) := by
    apply List.ext_getElem?
    intro j
    rw [List.getElem?_drop, List.getElem?_drop]
    exact hsame _ (by omega)
  have hb : B[i] ≠ B2[i] := by
    intro he
    apply hdiff
    rw [List.getElem?_eq_getElem hi, List.getElem?_eq_getElem hi2, he]
  have e1 := split_at_index B i hi
  have e2 := split_at_index B2 i hi2
  rw [e1, e2, htake, hdrop]
  exact fnv1a64_ne_of_split _ _ _ _ hb

/-- Witness of C19 on `"abc"` and `"aXc"`, which differ at index 1 only. -/
theorem fnv1a64_detects_single_byte_change_witness :
    (([97, 98, 99] : List Byte).length = ([97, 88, 99] : List Byte).length ∧
      1 < ([97, 98, 99] : List Byte).length ∧
      ([97, 98, 99] : List Byte)[1]? ≠ ([97, 88, 99] : List Byte)[1]? ∧
      ∀ j, j ≠ 1 → ([97, 98, 99] : List Byte)[j]? = ([97, 88, 99] : List Byte)[j]?) ∧
    fnv1a64 [97, 98, 99] ≠ fnv1a64 [97, 88, 99] :=
  have hs : ∀ j, j ≠ 1 → ([97, 98, 99] : List Byte)[j]? = ([97, 88, 99] : List Byte)[j]? := by
    intro j hj
    match j, hj with
    | 0, _ => rfl
    | 1, h => exact absurd rfl h
    | 2, _ => rfl
    | _ + 3, _ => rfl
  ⟨⟨rfl, by decide, by decide, hs⟩,
    fnv1a64_detects_single_byte_change [97, 98, 99] [97, 88, 99] 1 rfl (by decide)
      (by decide) hs⟩

end TallerSIMD
